import Mathlib

/-!
Shallow embedding of `src/packages/ferro/src/runtime.c`: the ferro string
runtime.  A `fs_String` is the C struct `{ char* ptr; int len; int cap; }`;
the C heap is modelled as a list of malloc'd blocks (each block a list of
byte values), and a pointer is an index into that list (`none` = NULL).

`malloc(size + 1)` is modelled by an oracle argument `m : Option (List Nat)`:
`none` means the allocation failed, `some junk` means it succeeded and the
fresh block's uninitialized contents are `junk` (faithfulness asks
`junk.length = size + 1`, stated as a hypothesis where it matters).
Machine ints (`int`) are modelled as `Int`; signed overflow is UB in C, so
theorems carry in-range hypotheses instead of wrapping.
-/

namespace Ferro

/-- The C heap: a list of malloc'd blocks, each a list of byte values.
A valid pointer is an index into this list. -/
abbrev Heap : Type := List (List Nat)

/-- Read the block at address `a` (out-of-range reads give `[]`;
theorems always carry validity hypotheses). -/
def readBlock (h : Heap) (a : Nat) : List Nat :=
  List.getD h a []

/-- Number of blocks in the heap. -/
def heapSize (h : Heap) : Nat :=
  List.length h

/-- Append a fresh block to the heap (models a successful `malloc`). -/
def pushBlock (h : Heap) (b : List Nat) : Heap :=
  h ++ [b]

/-- Overwrite the block at address `a`. -/
def writeBlock (h : Heap) (a : Nat) (b : List Nat) : Heap :=
  List.set h a b

/-- The C struct `fs_String { char* ptr; int len; int cap; }` from
`runtime.c`.  `ptr` is `none` for NULL, `some a` for a heap address. -/
structure fs_String where
  ptr : Option Nat
  len : Int
  cap : Int
  deriving DecidableEq

/-- Model of `memcpy(dst + off, src, n)` restricted to one block: overwrite the
`n` bytes of `dst` starting at offset `off` with the first `n` bytes of
`src`.  Faithful to the C call when `off + n ≤ dst.length` and
`n ≤ src.length` (anything else is UB in C). -/
def memcpyAt (dst : List Nat) (off : Nat) (src : List Nat) (n : Nat) : List Nat :=
  dst.take off ++ src.take n ++ dst.drop (off + n)

/-- Model of `fs_string_alloc` from `runtime.c`:
`s.ptr = malloc(size + 1); s.len = 0; s.cap = size; if (s.ptr) s.ptr[0] = 0;`.
The oracle `m` is the outcome of `malloc(size + 1)`. -/
def fs_string_alloc (h : Heap) (size : Int) (m : Option (List Nat)) :
    fs_String × Heap :=
  match m with
  | none => (⟨none, 0, size⟩, h)
  | some junk => (⟨some (heapSize h), 0, size⟩, pushBlock h (junk.set 0 0))

/-- Model of `fs_string_from_literal` from `runtime.c`:
`s = fs_string_alloc(len); if (s.ptr) { memcpy(s.ptr, data, len); s.ptr[len] = 0; s.len = len; }`. -/
def fs_string_from_literal (h : Heap) (data : List Nat) (len : Int)
    (m : Option (List Nat)) : fs_String × Heap :=
  let r := fs_string_alloc h len m
  match r.1.ptr with
  | none => r
  | some a =>
      let buf := memcpyAt (readBlock r.2 a) 0 data len.toNat
      let buf := buf.set len.toNat 0
      (⟨some a, len, r.1.cap⟩, writeBlock r.2 a buf)

/-- Model of `fs_string_concat` from `runtime.c`:
`new_len = s1->len + s2->len; s = fs_string_alloc(new_len);
if (s.ptr) { if (s1->ptr) memcpy(s.ptr, s1->ptr, s1->len);
if (s2->ptr) memcpy(s.ptr + s1->len, s2->ptr, s2->len);
s.ptr[new_len] = 0; s.len = new_len; }`. -/
def fs_string_concat (h : Heap) (s1 s2 : fs_String) (m : Option (List Nat)) :
    fs_String × Heap :=
  let new_len := s1.len + s2.len
  let r := fs_string_alloc h new_len m
  match r.1.ptr with
  | none => r
  | some a =>
      let buf := readBlock r.2 a
      let buf := match s1.ptr with
        | none => buf
        | some a1 => memcpyAt buf 0 (readBlock r.2 a1) s1.len.toNat
      let buf := match s2.ptr with
        | none => buf
        | some a2 => memcpyAt buf s1.len.toNat (readBlock r.2 a2) s2.len.toNat
      let buf := buf.set new_len.toNat 0
      (⟨some a, new_len, r.1.cap⟩, writeBlock r.2 a buf)

/-- The byte sequence `printf` output for `"(null)\n"`. -/
def nullBytes : List Nat := [40, 110, 117, 108, 108, 41, 10]

/-- Model of `fs_print_string` from `runtime.c`, as the byte sequence written to
stdout.  `printf("%.*s\n", s->len, s->ptr)` writes characters from the
buffer up to the first NUL byte, but at most `len` of them; a negative
precision is treated by `printf` as if the precision were omitted
(write up to the first NUL).  The NULL branch writes `"(null)\n"`. -/
def fs_print_string (h : Heap) (s : fs_String) : List Nat :=
  match s.ptr with
  | none => nullBytes
  | some a =>
      let buf := readBlock h a
      let written :=
        if s.len < 0 then buf.takeWhile (fun b => b ≠ 0)
        else (buf.take s.len.toNat).takeWhile (fun b => b ≠ 0)
      written ++ [10]

/-- The observable content of a string value: the `len` bytes its length
field claims, read from its buffer (`[]` for a NULL handle). -/
def content (h : Heap) (s : fs_String) : List Nat :=
  match s.ptr with
  | none => []
  | some a => (readBlock h a).take s.len.toNat

/-- A well-formed (successfully constructed) string value: non-negative
length; a non-NULL handle points at a live block holding at least `len`
bytes; a NULL handle (failed allocation) has length 0. -/
def WF (h : Heap) (s : fs_String) : Prop :=
  0 ≤ s.len ∧
    match s.ptr with
    | none => s.len = 0
    | some a => a < heapSize h ∧ s.len.toNat ≤ (readBlock h a).length

end Ferro

namespace Ferro

lemma heapSize_pushBlock (h : Heap) (b : List Nat) :
    heapSize (pushBlock h b) = heapSize h + 1 := by
  simp [heapSize, pushBlock]

lemma heapSize_writeBlock (h : Heap) (a : Nat) (b : List Nat) :
    heapSize (writeBlock h a b) = heapSize h := by
  simp [heapSize, writeBlock]

lemma readBlock_pushBlock_lt (h : Heap) (b : List Nat) (a : Nat)
    (ha : a < heapSize h) : readBlock (pushBlock h b) a = readBlock h a := by
  simp only [readBlock, pushBlock]
  exact List.getD_append _ _ _ _ ha

lemma readBlock_pushBlock_self (h : Heap) (b : List Nat) :
    readBlock (pushBlock h b) (heapSize h) = b := by
  simp only [readBlock, pushBlock, heapSize]
  rw [List.getD_append_right _ _ _ _ (le_refl _)]
  simp

lemma writeBlock_pushBlock (h : Heap) (b b' : List Nat) :
    writeBlock (pushBlock h b) (heapSize h) b' = pushBlock h b' := by
  simp [writeBlock, pushBlock, heapSize, List.set_append]

lemma set_zero_of_length_one (l : List Nat) (hl : l.length = 1) :
    l.set 0 0 = [0] := by
  cases l with
  | nil => simp at hl
  | cons x xs => cases xs with
    | nil => rfl
    | cons y ys => simp at hl

end Ferro

namespace Ferro

lemma memcpyAt_zero (dst src : List Nat) (n : Nat) :
    memcpyAt dst 0 src n = src.take n ++ dst.drop n := by
  simp [memcpyAt]

lemma drop_append_of_length (l1 l2 : List Nat) (n m : Nat) (hl : l1.length = n) :
    (l1 ++ l2).drop (n + m) = l2.drop m := by
  subst hl
  exact List.drop_append m

lemma set_append_at_length (l1 l2 : List Nat) (n : Nat) (x : Nat)
    (hl : l1.length = n) : (l1 ++ l2).set n x = l1 ++ l2.set 0 x := by
  subst hl
  rw [List.set_append, if_neg (by omega)]
  simp

lemma concat_some_some_block (h : Heap) (s1 s2 : fs_String) (a1 a2 : Nat)
    (junk : List Nat)
    (hp1 : s1.ptr = some a1) (hp2 : s2.ptr = some a2)
    (hl1 : 0 ≤ s1.len) (hl2 : 0 ≤ s2.len)
    (ha1 : a1 < heapSize h) (ha2 : a2 < heapSize h)
    (hn1 : s1.len.toNat ≤ (readBlock h a1).length)
    (hn2 : s2.len.toNat ≤ (readBlock h a2).length)
    (hj : junk.length = s1.len.toNat + s2.len.toNat + 1) :
    fs_string_concat h s1 s2 (some junk) =
      (⟨some (heapSize h), s1.len + s2.len, s1.len + s2.len⟩,
       pushBlock h
         ((readBlock h a1).take s1.len.toNat ++
            (readBlock h a2).take s2.len.toNat ++ [0])) := by
  set n1 := s1.len.toNat with hn1def
  set n2 := s2.len.toNat with hn2def
  set b1 := readBlock h a1 with hb1
  set b2 := readBlock h a2 with hb2
  have hblk : ((junk.set 0 0)).length = n1 + n2 + 1 := by simpa using hj
  have htk1 : (b1.take n1).length = n1 := List.length_take_of_le hn1
  have htk2 : (b2.take n2).length = n2 := List.length_take_of_le hn2
  simp only [fs_string_concat, fs_string_alloc, hp1, hp2]
  rw [readBlock_pushBlock_self, readBlock_pushBlock_lt _ _ _ ha1,
      readBlock_pushBlock_lt _ _ _ ha2]
  rw [memcpyAt_zero, memcpyAt]
  rw [List.take_left' htk1]
  rw [drop_append_of_length _ _ n1 n2 htk1, List.drop_drop]
  have htoNat : (s1.len + s2.len).toNat = n1 + n2 := Int.toNat_add hl1 hl2
  rw [htoNat]
  have hone : ((junk.set 0 0).drop (n1 + n2)).length = 1 := by
    rw [List.length_drop, hblk]
    omega
  rw [set_append_at_length _ _ (n1 + n2) 0
        (by rw [List.length_append, htk1, htk2]),
      set_zero_of_length_one _ hone]
  rw [writeBlock_pushBlock]

lemma concat_none_some_block (h : Heap) (s1 s2 : fs_String) (a2 : Nat)
    (junk : List Nat)
    (hp1 : s1.ptr = none) (hp2 : s2.ptr = some a2)
    (hl1 : 0 ≤ s1.len) (hl2 : 0 ≤ s2.len)
    (ha2 : a2 < heapSize h)
    (hn2 : s2.len.toNat ≤ (readBlock h a2).length)
    (hj : junk.length = s1.len.toNat + s2.len.toNat + 1) :
    fs_string_concat h s1 s2 (some junk) =
      (⟨some (heapSize h), s1.len + s2.len, s1.len + s2.len⟩,
       pushBlock h
         ((junk.set 0 0).take s1.len.toNat ++
            (readBlock h a2).take s2.len.toNat ++ [0])) := by
  have hblk : ((junk.set 0 0)).length = s1.len.toNat + s2.len.toNat + 1 := by
    simpa using hj
  have htk1 : ((junk.set 0 0).take s1.len.toNat).length = s1.len.toNat :=
    List.length_take_of_le (by omega)
  have htk2 : ((readBlock h a2).take s2.len.toNat).length = s2.len.toNat :=
    List.length_take_of_le hn2
  simp only [fs_string_concat, fs_string_alloc, hp1, hp2]
  rw [readBlock_pushBlock_self, readBlock_pushBlock_lt _ _ _ ha2]
  rw [memcpyAt]
  rw [Int.toNat_add hl1 hl2]
  have hone : ((junk.set 0 0).drop (s1.len.toNat + s2.len.toNat)).length = 1 := by
    rw [List.length_drop, hblk]
    omega
  rw [set_append_at_length _ _ (s1.len.toNat + s2.len.toNat) 0
        (by rw [List.length_append, htk1, htk2]),
      set_zero_of_length_one _ hone]
  rw [writeBlock_pushBlock]

lemma from_literal_some_block (h : Heap) (data : List Nat) (len : Int)
    (junk : List Nat)
    (_hl : 0 ≤ len) (hd : data.length = len.toNat)
    (hj : junk.length = len.toNat + 1) :
    fs_string_from_literal h data len (some junk) =
      (⟨some (heapSize h), len, len⟩, pushBlock h (data ++ [0])) := by
  have hblk : ((junk.set 0 0)).length = len.toNat + 1 := by simpa using hj
  simp only [fs_string_from_literal, fs_string_alloc]
  rw [readBlock_pushBlock_self]
  rw [memcpyAt_zero]
  rw [← hd, List.take_length]
  have hone : ((junk.set 0 0).drop data.length).length = 1 := by
    rw [List.length_drop, hblk, hd]
    omega
  rw [set_append_at_length _ _ data.length 0 rfl,
      set_zero_of_length_one _ hone]
  rw [writeBlock_pushBlock]

lemma readBlock_writeBlock_ne (h : Heap) (a a2 : Nat) (b : List Nat)
    (hne : a ≠ a2) : readBlock (writeBlock h a b) a2 = readBlock h a2 := by
  simp [readBlock, writeBlock, List.getD_eq_getElem?_getD, List.getElem?_set_ne hne]

lemma content_pushBlock_lt (h : Heap) (B : List Nat) (s : fs_String) (a : Nat)
    (hp : s.ptr = some a) (ha : a < heapSize h) :
    content (pushBlock h B) s = content h s := by
  simp [content, hp, readBlock_pushBlock_lt _ _ _ ha]

lemma concat_none_none (h : Heap) (s1 s2 : fs_String) (junk : List Nat)
    (hp1 : s1.ptr = none) (hp2 : s2.ptr = none) :
    fs_string_concat h s1 s2 (some junk) =
      (⟨some (heapSize h), s1.len + s2.len, s1.len + s2.len⟩,
       pushBlock h ((junk.set 0 0).set (s1.len + s2.len).toNat 0)) := by
  simp only [fs_string_concat, fs_string_alloc, hp1, hp2]
  rw [readBlock_pushBlock_self, writeBlock_pushBlock]

lemma concat_content_eq (h : Heap) (s1 s2 : fs_String) (a1 a2 : Nat)
    (junk : List Nat)
    (hp1 : s1.ptr = some a1) (hp2 : s2.ptr = some a2)
    (hl1 : 0 ≤ s1.len) (hl2 : 0 ≤ s2.len)
    (ha1 : a1 < heapSize h) (ha2 : a2 < heapSize h)
    (hn1 : s1.len.toNat ≤ (readBlock h a1).length)
    (hn2 : s2.len.toNat ≤ (readBlock h a2).length)
    (hj : junk.length = s1.len.toNat + s2.len.toNat + 1) :
    content (fs_string_concat h s1 s2 (some junk)).2
        (fs_string_concat h s1 s2 (some junk)).1 =
      content h s1 ++ content h s2 := by
  have htk1 : ((readBlock h a1).take s1.len.toNat).length = s1.len.toNat :=
    List.length_take_of_le hn1
  have htk2 : ((readBlock h a2).take s2.len.toNat).length = s2.len.toNat :=
    List.length_take_of_le hn2
  rw [concat_some_some_block h s1 s2 a1 a2 junk hp1 hp2 hl1 hl2 ha1 ha2 hn1 hn2 hj]
  simp only [content, hp1, hp2]
  rw [readBlock_pushBlock_self, Int.toNat_add hl1 hl2]
  exact List.take_left' (by rw [List.length_append, htk1, htk2])

/-- C2 (counterexample): the claim "print writes exactly `length` bytes of the
buffer verbatim, including zero bytes within the content" is false: on the
value of length 3 whose buffer holds bytes `[97, 0, 98, 0]`,
`printf("%.*s\n", 3, ptr)` stops at the embedded zero byte and writes
`[97, 10]`, not `[97, 0, 98, 10]`. -/
theorem print_embedded_zero_truncates :
    fs_print_string [[97, 0, 98, 0]] ⟨some 0, 3, 3⟩ ≠ [97, 0, 98] ++ [10] := by
  decide

/-- C2 (amended): `print` on a value with a non-null handle whose first
`length` buffer bytes contain no zero byte writes exactly those `length`
bytes verbatim followed by a newline; `print` on a value with a null handle
writes exactly the text `(null)` followed by a newline. -/
theorem print_correct (h : Heap) (s : fs_String) :
    (∀ a, s.ptr = some a → 0 ≤ s.len →
      s.len.toNat ≤ (readBlock h a).length →
      (∀ b ∈ (readBlock h a).take s.len.toNat, b ≠ 0) →
      fs_print_string h s = (readBlock h a).take s.len.toNat ++ [10]) ∧
    (s.ptr = none →
      fs_print_string h s = [40, 110, 117, 108, 108, 41] ++ [10]) := by
  constructor
  · intro a hp hl _hn hz
    simp only [fs_print_string, hp]
    rw [if_neg (not_lt.mpr hl)]
    congr 1
    rw [List.takeWhile_eq_self_iff]
    intro x hx
    simpa using hz x hx
  · intro hp
    simp [fs_print_string, hp, nullBytes]

/-- C2 witness: `print` on the value built from literal bytes `"hi"`
(104, 105; length 2) outputs exactly `hi` then a line break, and `print`
on a null-handle value outputs exactly `(null)` then a line break. -/
theorem print_correct_witness :
    fs_print_string [[104, 105, 0]] ⟨some 0, 2, 2⟩ =
        (readBlock [[104, 105, 0]] 0).take 2 ++ [10] ∧
      fs_print_string [] ⟨none, 0, 0⟩ = [40, 110, 117, 108, 108, 41] ++ [10] :=
  ⟨(print_correct [[104, 105, 0]] ⟨some 0, 2, 2⟩).1 0 rfl (by decide) (by decide)
      (by decide),
    (print_correct [] ⟨none, 0, 0⟩).2 rfl⟩

/-- C4: for every byte sequence `data` of non-negative length `n`,
`fs_string_from_literal` under a successful allocation yields a value with
length `n`, capacity `n`, buffer content byte-for-byte equal to `data`, and
a zero terminator byte at offset `n`. -/
theorem from_literal_correct (h : Heap) (data : List Nat) (n : Int)
    (junk : List Nat) (hl : 0 ≤ n) (hd : data.length = n.toNat)
    (hj : junk.length = n.toNat + 1) :
    (fs_string_from_literal h data n (some junk)).1.ptr = some (heapSize h) ∧
      (fs_string_from_literal h data n (some junk)).1.len = n ∧
      (fs_string_from_literal h data n (some junk)).1.cap = n ∧
      content (fs_string_from_literal h data n (some junk)).2
          (fs_string_from_literal h data n (some junk)).1 = data ∧
      (readBlock (fs_string_from_literal h data n (some junk)).2
          (heapSize h)).getD n.toNat 1 = 0 := by
  rw [from_literal_some_block h data n junk hl hd hj]
  refine ⟨rfl, rfl, rfl, ?_, ?_⟩
  · simp only [content, readBlock_pushBlock_self]
    exact List.take_left' hd
  · rw [readBlock_pushBlock_self,
      List.getD_append_right _ _ _ _ (le_of_eq hd), hd]
    simp

/-- C4 witness: `fs_string_from_literal` on the bytes of `"foo"` in the
empty heap yields length 3, capacity 3, content `foo` and a terminator at
offset 3. -/
theorem from_literal_correct_witness :
    (fs_string_from_literal [] [102, 111, 111] 3 (some [9, 9, 9, 9])).1.ptr =
        some (heapSize []) ∧
      (fs_string_from_literal [] [102, 111, 111] 3 (some [9, 9, 9, 9])).1.len = 3 ∧
      (fs_string_from_literal [] [102, 111, 111] 3 (some [9, 9, 9, 9])).1.cap = 3 ∧
      content (fs_string_from_literal [] [102, 111, 111] 3 (some [9, 9, 9, 9])).2
          (fs_string_from_literal [] [102, 111, 111] 3 (some [9, 9, 9, 9])).1 =
        [102, 111, 111] ∧
      (readBlock (fs_string_from_literal [] [102, 111, 111] 3 (some [9, 9, 9, 9])).2
          (heapSize [])).getD (Int.toNat 3) 1 = 0 :=
  from_literal_correct [] [102, 111, 111] 3 [9, 9, 9, 9] (by decide) (by decide)
    (by decide)

/-- C5: for every non-negative `n`, `fs_string_alloc` under a successful
allocation (of `n + 1` bytes) yields a value with length 0, capacity `n`,
and a buffer whose byte at offset 0 is the terminator value zero. -/
theorem alloc_success_correct (h : Heap) (n : Int) (junk : List Nat)
    (_hl : 0 ≤ n) (hj : junk.length = n.toNat + 1) :
    (fs_string_alloc h n (some junk)).1.len = 0 ∧
      (fs_string_alloc h n (some junk)).1.cap = n ∧
      (fs_string_alloc h n (some junk)).1.ptr = some (heapSize h) ∧
      (readBlock (fs_string_alloc h n (some junk)).2 (heapSize h)).getD 0 1 = 0 := by
  refine ⟨rfl, rfl, rfl, ?_⟩
  simp only [fs_string_alloc, readBlock_pushBlock_self]
  cases junk with
  | nil => simp at hj
  | cons x xs => rfl

/-- C5 witness: `fs_string_alloc` of size 2 in the empty heap with fresh
bytes `[8, 8, 8]` yields length 0, capacity 2 and a zero first byte. -/
theorem alloc_success_correct_witness :
    (fs_string_alloc [] 2 (some [8, 8, 8])).1.len = 0 ∧
      (fs_string_alloc [] 2 (some [8, 8, 8])).1.cap = 2 ∧
      (fs_string_alloc [] 2 (some [8, 8, 8])).1.ptr = some (heapSize []) ∧
      (readBlock (fs_string_alloc [] 2 (some [8, 8, 8])).2 (heapSize [])).getD 0 1 = 0 :=
  alloc_success_correct [] 2 [8, 8, 8] (by decide) (by decide)

/-- C6: when the underlying allocation fails, `fs_string_alloc` returns a
value with a null buffer handle, length 0, and capacity equal to the
originally requested size (capacity is not reset to 0), leaving the heap
untouched; `fs_string_from_literal` under a failed allocation returns that
failed value unchanged with the copy step skipped entirely. -/
theorem alloc_failure_correct (h : Heap) (n : Int) (data : List Nat) :
    fs_string_alloc h n none = (⟨none, 0, n⟩, h) ∧
      fs_string_from_literal h data n none = (⟨none, 0, n⟩, h) := by
  exact ⟨rfl, rfl⟩

/-- C8: `fs_string_concat` leaves both inputs completely unchanged whether
the new allocation succeeds or fails: the model passes the input structs
by value (the C code never writes through `s1` or `s2`), and this theorem
states that every pre-existing heap block — in particular each input's
buffer — is bytewise unchanged, and that no block is freed (the heap only
grows). -/
theorem concat_frame (h : Heap) (s1 s2 : fs_String) (m : Option (List Nat))
    (a : Nat) (ha : a < heapSize h) :
    readBlock (fs_string_concat h s1 s2 m).2 a = readBlock h a ∧
      heapSize h ≤ heapSize (fs_string_concat h s1 s2 m).2 := by
  cases m with
  | none => exact ⟨rfl, le_refl _⟩
  | some junk =>
      have hne : heapSize h ≠ a := Nat.ne_of_gt ha
      have hlt : a < heapSize (pushBlock h (junk.set 0 0)) := by
        rw [heapSize_pushBlock]
        omega
      cases hs1 : s1.ptr with
      | none =>
          cases hs2 : s2.ptr with
          | none =>
              simp only [fs_string_concat, fs_string_alloc, hs1, hs2]
              rw [readBlock_writeBlock_ne _ _ _ _ hne,
                readBlock_pushBlock_lt _ _ _ ha]
              refine ⟨rfl, ?_⟩
              rw [heapSize_writeBlock, heapSize_pushBlock]
              omega
          | some a2 =>
              simp only [fs_string_concat, fs_string_alloc, hs1, hs2]
              rw [readBlock_writeBlock_ne _ _ _ _ hne,
                readBlock_pushBlock_lt _ _ _ ha]
              refine ⟨rfl, ?_⟩
              rw [heapSize_writeBlock, heapSize_pushBlock]
              omega
      | some a1 =>
          cases hs2 : s2.ptr with
          | none =>
              simp only [fs_string_concat, fs_string_alloc, hs1, hs2]
              rw [readBlock_writeBlock_ne _ _ _ _ hne,
                readBlock_pushBlock_lt _ _ _ ha]
              refine ⟨rfl, ?_⟩
              rw [heapSize_writeBlock, heapSize_pushBlock]
              omega
          | some a2 =>
              simp only [fs_string_concat, fs_string_alloc, hs1, hs2]
              rw [readBlock_writeBlock_ne _ _ _ _ hne,
                readBlock_pushBlock_lt _ _ _ ha]
              refine ⟨rfl, ?_⟩
              rw [heapSize_writeBlock, heapSize_pushBlock]
              omega

/-- C8 witness: concatenating `"ab"` and `"c"` (blocks 0 and 1) leaves
block 0 unchanged and does not shrink the heap. -/
theorem concat_frame_witness :
    readBlock (fs_string_concat [[97, 98, 0], [99, 0]] ⟨some 0, 2, 2⟩
        ⟨some 1, 1, 1⟩ (some [5, 5, 5, 5])).2 0 =
        readBlock [[97, 98, 0], [99, 0]] 0 ∧
      heapSize [[97, 98, 0], [99, 0]] ≤
        heapSize (fs_string_concat [[97, 98, 0], [99, 0]] ⟨some 0, 2, 2⟩
          ⟨some 1, 1, 1⟩ (some [5, 5, 5, 5])).2 :=
  concat_frame [[97, 98, 0], [99, 0]] ⟨some 0, 2, 2⟩ ⟨some 1, 1, 1⟩
    (some [5, 5, 5, 5]) 0 (by decide)

/-- C9: every successfully constructed string value satisfies
`length ≤ capacity`: this holds for `fs_string_alloc` with a non-negative
requested size, for `fs_string_from_literal` with a non-negative length,
and for `fs_string_concat` on inputs with non-negative length fields,
whenever the underlying allocation succeeds (non-null handle). -/
theorem constructed_len_le_cap :
    (∀ (h : Heap) (n : Int) (junk : List Nat), 0 ≤ n →
      (fs_string_alloc h n (some junk)).1.len ≤
        (fs_string_alloc h n (some junk)).1.cap) ∧
    (∀ (h : Heap) (data : List Nat) (n : Int) (junk : List Nat), 0 ≤ n →
      (fs_string_from_literal h data n (some junk)).1.len ≤
        (fs_string_from_literal h data n (some junk)).1.cap) ∧
    (∀ (h : Heap) (s1 s2 : fs_String) (junk : List Nat),
      0 ≤ s1.len → 0 ≤ s2.len →
      (fs_string_concat h s1 s2 (some junk)).1.len ≤
        (fs_string_concat h s1 s2 (some junk)).1.cap) := by
  refine ⟨fun h n junk hn => hn, fun h data n junk _hn => ?_, ?_⟩
  · simp [fs_string_from_literal, fs_string_alloc]
  · intro h s1 s2 junk _h1 _h2
    cases hs1 : s1.ptr <;> cases hs2 : s2.ptr <;>
      simp [fs_string_concat, fs_string_alloc, hs1, hs2]

/-- C9 witness: the invariant at concrete inputs for all three operations. -/
theorem constructed_len_le_cap_witness :
    (fs_string_alloc [] 4 (some [1, 1, 1, 1, 1])).1.len ≤
        (fs_string_alloc [] 4 (some [1, 1, 1, 1, 1])).1.cap ∧
      (fs_string_from_literal [] [102] 1 (some [2, 2])).1.len ≤
        (fs_string_from_literal [] [102] 1 (some [2, 2])).1.cap ∧
      (fs_string_concat [[97, 0]] ⟨some 0, 1, 1⟩ ⟨some 0, 1, 1⟩
          (some [3, 3, 3])).1.len ≤
        (fs_string_concat [[97, 0]] ⟨some 0, 1, 1⟩ ⟨some 0, 1, 1⟩
          (some [3, 3, 3])).1.cap :=
  ⟨constructed_len_le_cap.1 [] 4 [1, 1, 1, 1, 1] (by decide),
    constructed_len_le_cap.2.1 [] [102] 1 [2, 2] (by decide),
    constructed_len_le_cap.2.2 [[97, 0]] ⟨some 0, 1, 1⟩ ⟨some 0, 1, 1⟩
      [3, 3, 3] (by decide) (by decide)⟩

/-- C3: for every pair of successfully constructed values `x`, `y`
(non-null handles, non-negative lengths describing their buffers, sum in
`int` range), `fs_string_concat` under a successful allocation yields a
value whose buffer is the fresh block, with length `x.len + y.len`, whose
content is the bytes of `x` followed by the bytes of `y`, and a zero
terminator byte at offset `x.len + y.len`. -/
theorem concat_correct (h : Heap) (x y : fs_String) (a1 a2 : Nat)
    (junk : List Nat)
    (hp1 : x.ptr = some a1) (hp2 : y.ptr = some a2)
    (hl1 : 0 ≤ x.len) (hl2 : 0 ≤ y.len)
    (ha1 : a1 < heapSize h) (ha2 : a2 < heapSize h)
    (hn1 : x.len.toNat ≤ (readBlock h a1).length)
    (hn2 : y.len.toNat ≤ (readBlock h a2).length)
    (_hr : x.len + y.len < 2147483648)
    (hj : junk.length = x.len.toNat + y.len.toNat + 1) :
    (fs_string_concat h x y (some junk)).1.ptr = some (heapSize h) ∧
      (fs_string_concat h x y (some junk)).1.len = x.len + y.len ∧
      content (fs_string_concat h x y (some junk)).2
          (fs_string_concat h x y (some junk)).1 =
        content h x ++ content h y ∧
      (readBlock (fs_string_concat h x y (some junk)).2
          (heapSize h)).getD (x.len + y.len).toNat 1 = 0 := by
  have htk1 : ((readBlock h a1).take x.len.toNat).length = x.len.toNat :=
    List.length_take_of_le hn1
  have htk2 : ((readBlock h a2).take y.len.toNat).length = y.len.toNat :=
    List.length_take_of_le hn2
  refine ⟨?_, ?_, ?_, ?_⟩
  · rw [concat_some_some_block h x y a1 a2 junk hp1 hp2 hl1 hl2 ha1 ha2 hn1 hn2 hj]
  · rw [concat_some_some_block h x y a1 a2 junk hp1 hp2 hl1 hl2 ha1 ha2 hn1 hn2 hj]
  · exact concat_content_eq h x y a1 a2 junk hp1 hp2 hl1 hl2 ha1 ha2 hn1 hn2 hj
  · rw [concat_some_some_block h x y a1 a2 junk hp1 hp2 hl1 hl2 ha1 ha2 hn1 hn2 hj]
    rw [readBlock_pushBlock_self, Int.toNat_add hl1 hl2]
    rw [List.getD_append_right _ _ _ _
        (le_of_eq (by rw [List.length_append, htk1, htk2]))]
    rw [List.length_append, htk1, htk2]
    simp

/-- C3 witness: concatenating `"ab"` (block 0) and `"c"` (block 1) yields
length 3, content `abc`, and a terminator at offset 3. -/
theorem concat_correct_witness :
    (fs_string_concat [[97, 98, 0], [99, 0]] ⟨some 0, 2, 2⟩ ⟨some 1, 1, 1⟩
        (some [5, 5, 5, 5])).1.ptr = some (heapSize [[97, 98, 0], [99, 0]]) ∧
      (fs_string_concat [[97, 98, 0], [99, 0]] ⟨some 0, 2, 2⟩ ⟨some 1, 1, 1⟩
        (some [5, 5, 5, 5])).1.len = 2 + 1 ∧
      content (fs_string_concat [[97, 98, 0], [99, 0]] ⟨some 0, 2, 2⟩
          ⟨some 1, 1, 1⟩ (some [5, 5, 5, 5])).2
        (fs_string_concat [[97, 98, 0], [99, 0]] ⟨some 0, 2, 2⟩ ⟨some 1, 1, 1⟩
          (some [5, 5, 5, 5])).1 =
        content [[97, 98, 0], [99, 0]] ⟨some 0, 2, 2⟩ ++
          content [[97, 98, 0], [99, 0]] ⟨some 1, 1, 1⟩ ∧
      (readBlock (fs_string_concat [[97, 98, 0], [99, 0]] ⟨some 0, 2, 2⟩
          ⟨some 1, 1, 1⟩ (some [5, 5, 5, 5])).2
        (heapSize [[97, 98, 0], [99, 0]])).getD (Int.toNat (2 + 1)) 1 = 0 :=
  concat_correct [[97, 98, 0], [99, 0]] ⟨some 0, 2, 2⟩ ⟨some 1, 1, 1⟩ 0 1
    [5, 5, 5, 5] rfl rfl (by decide) (by decide) (by decide) (by decide)
    (by decide) (by decide) (by decide) (by decide)

/-- C1 (counterexample): the claim that concatenating a null-handle value
`x` with an arbitrary recorded length and any `y` yields content equal to
`y`'s content alone is false: with `x = ⟨NULL, len 1, cap 0⟩` and
`y = "a"` (block 0), the allocation succeeds (the result handle is block 1)
yet the result's content is `[0, 97]` (a stale byte followed by `"a"` at
offset 1), not `y`'s content `[97]`. -/
theorem concat_nullfirst_nonzero_len_counterexample :
    (fs_string_concat [[97, 0]] ⟨none, 1, 0⟩ ⟨some 0, 1, 1⟩
        (some [7, 7, 7])).1.ptr = some 1 ∧
      content (fs_string_concat [[97, 0]] ⟨none, 1, 0⟩ ⟨some 0, 1, 1⟩
          (some [7, 7, 7])).2
        (fs_string_concat [[97, 0]] ⟨none, 1, 0⟩ ⟨some 0, 1, 1⟩
          (some [7, 7, 7])).1 ≠
      content [[97, 0]] ⟨some 0, 1, 1⟩ := by
  decide

/-- C1 (amended): for every value `x` whose buffer handle is null and whose
recorded length field is zero (as every failed allocation has), and every
well-formed value `y`, `fs_string_concat` under a successful allocation
yields a value whose content equals `y`'s content alone. -/
theorem concat_nullfirst_content (h : Heap) (x y : fs_String)
    (junk : List Nat)
    (hp1 : x.ptr = none) (hxl : x.len = 0) (hy : WF h y)
    (hj : junk.length = (x.len + y.len).toNat + 1) :
    content (fs_string_concat h x y (some junk)).2
        (fs_string_concat h x y (some junk)).1 = content h y := by
  obtain ⟨hl2, hy2⟩ := hy
  cases hp2 : y.ptr with
  | none =>
      rw [hp2] at hy2
      rw [concat_none_none h x y junk hp1 hp2]
      simp [content, readBlock_pushBlock_self, hxl, hy2, hp2]
  | some a2 =>
      rw [hp2] at hy2
      obtain ⟨ha2, hn2⟩ := hy2
      have htk2 : ((readBlock h a2).take y.len.toNat).length = y.len.toNat :=
        List.length_take_of_le hn2
      have hl1 : (0 : Int) ≤ x.len := le_of_eq hxl.symm
      rw [concat_none_some_block h x y a2 junk hp1 hp2 hl1 hl2 ha2 hn2
          (by rw [hj, hxl]; simp)]
      simp only [content, hp2, readBlock_pushBlock_self]
      rw [Int.toNat_add hl1 hl2, hxl]
      simp only [Int.toNat_zero, List.take_zero, List.nil_append, Nat.zero_add]
      exact List.take_left' htk2

/-- C1 amended witness: concatenating a failed-allocation value
`⟨NULL, 0, 0⟩` with `"a"` (block 0) yields content `[97]`, `y`'s content
alone. -/
theorem concat_nullfirst_content_witness :
    content (fs_string_concat [[97, 0]] ⟨none, 0, 0⟩ ⟨some 0, 1, 1⟩
        (some [7, 7])).2
      (fs_string_concat [[97, 0]] ⟨none, 0, 0⟩ ⟨some 0, 1, 1⟩
        (some [7, 7])).1 = content [[97, 0]] ⟨some 0, 1, 1⟩ :=
  concat_nullfirst_content [[97, 0]] ⟨none, 0, 0⟩ ⟨some 0, 1, 1⟩ [7, 7] rfl rfl
    (by constructor <;> decide) (by decide)

/-- C10: for every value `x` with a null handle (non-negative recorded
length) and every well-formed non-null `y`, `fs_string_concat` under a
successful allocation records length `x.len + y.len` on the result and
writes `y`'s bytes starting at offset `x.len` of the new buffer; hence
when `x.len` is nonzero the recorded length exceeds the `y.len` bytes
actually copied in. -/
theorem concat_nullfirst_offset (h : Heap) (x y : fs_String) (a2 : Nat)
    (junk : List Nat)
    (hp1 : x.ptr = none) (hp2 : y.ptr = some a2)
    (hl1 : 0 ≤ x.len) (hl2 : 0 ≤ y.len)
    (ha2 : a2 < heapSize h)
    (hn2 : y.len.toNat ≤ (readBlock h a2).length)
    (hj : junk.length = x.len.toNat + y.len.toNat + 1) :
    (fs_string_concat h x y (some junk)).1.len = x.len + y.len ∧
      ((readBlock (fs_string_concat h x y (some junk)).2
          (heapSize h)).drop x.len.toNat).take y.len.toNat =
        (readBlock h a2).take y.len.toNat ∧
      (0 < x.len →
        y.len < (fs_string_concat h x y (some junk)).1.len) := by
  have hblk : ((junk.set 0 0)).length = x.len.toNat + y.len.toNat + 1 := by
    simpa using hj
  have htk1 : ((junk.set 0 0).take x.len.toNat).length = x.len.toNat :=
    List.length_take_of_le (by omega)
  have htk2 : ((readBlock h a2).take y.len.toNat).length = y.len.toNat :=
    List.length_take_of_le hn2
  rw [concat_none_some_block h x y a2 junk hp1 hp2 hl1 hl2 ha2 hn2 hj]
  refine ⟨rfl, ?_, ?_⟩
  · rw [readBlock_pushBlock_self]
    rw [List.append_assoc]
    rw [List.drop_left' htk1]
    exact List.take_left' htk2
  · intro hx
    simp only
    omega

/-- C10 witness: with `x = ⟨NULL, len 1, cap 0⟩` and `y = "a"` (block 0),
the result records length 2 and `y`'s byte 97 sits at offset 1 of the new
buffer, so the recorded length 2 exceeds the 1 byte actually copied. -/
theorem concat_nullfirst_offset_witness :
    (fs_string_concat [[97, 0]] ⟨none, 1, 0⟩ ⟨some 0, 1, 1⟩
        (some [7, 7, 7])).1.len = 1 + 1 ∧
      ((readBlock (fs_string_concat [[97, 0]] ⟨none, 1, 0⟩ ⟨some 0, 1, 1⟩
          (some [7, 7, 7])).2 (heapSize [[97, 0]])).drop (Int.toNat 1)).take
          (Int.toNat 1) =
        (readBlock [[97, 0]] 0).take (Int.toNat 1) ∧
      (0 < (1 : Int) →
        (1 : Int) < (fs_string_concat [[97, 0]] ⟨none, 1, 0⟩ ⟨some 0, 1, 1⟩
          (some [7, 7, 7])).1.len) :=
  concat_nullfirst_offset [[97, 0]] ⟨none, 1, 0⟩ ⟨some 0, 1, 1⟩ 0 [7, 7, 7]
    rfl rfl (by decide) (by decide) (by decide) (by decide) (by decide)

/-- C7: for all successfully constructed values `x`, `y`, `z` (non-null
handles, non-negative lengths describing their buffers), when every
intermediate allocation succeeds, the content of
`concat(concat(x, y), z)` equals the content of `concat(x, concat(y, z))`:
concatenation is associative in content. -/
theorem concat_assoc_content (h : Heap) (x y z : fs_String)
    (a1 a2 a3 : Nat) (j1 j2 j3 j4 : List Nat)
    (hp1 : x.ptr = some a1) (hp2 : y.ptr = some a2) (hp3 : z.ptr = some a3)
    (hl1 : 0 ≤ x.len) (hl2 : 0 ≤ y.len) (hl3 : 0 ≤ z.len)
    (ha1 : a1 < heapSize h) (ha2 : a2 < heapSize h) (ha3 : a3 < heapSize h)
    (hn1 : x.len.toNat ≤ (readBlock h a1).length)
    (hn2 : y.len.toNat ≤ (readBlock h a2).length)
    (hn3 : z.len.toNat ≤ (readBlock h a3).length)
    (hj1 : j1.length = x.len.toNat + y.len.toNat + 1)
    (hj2 : j2.length = (x.len + y.len).toNat + z.len.toNat + 1)
    (hj3 : j3.length = y.len.toNat + z.len.toNat + 1)
    (hj4 : j4.length = x.len.toNat + (y.len + z.len).toNat + 1) :
    content
        (fs_string_concat (fs_string_concat h x y (some j1)).2
          (fs_string_concat h x y (some j1)).1 z (some j2)).2
        (fs_string_concat (fs_string_concat h x y (some j1)).2
          (fs_string_concat h x y (some j1)).1 z (some j2)).1 =
      content
        (fs_string_concat (fs_string_concat h y z (some j3)).2 x
          (fs_string_concat h y z (some j3)).1 (some j4)).2
        (fs_string_concat (fs_string_concat h y z (some j3)).2 x
          (fs_string_concat h y z (some j3)).1 (some j4)).1 := by
  have htk1 : ((readBlock h a1).take x.len.toNat).length = x.len.toNat :=
    List.length_take_of_le hn1
  have htk2 : ((readBlock h a2).take y.len.toNat).length = y.len.toNat :=
    List.length_take_of_le hn2
  have htk3 : ((readBlock h a3).take z.len.toNat).length = z.len.toNat :=
    List.length_take_of_le hn3
  have hLb := concat_some_some_block h x y a1 a2 j1 hp1 hp2 hl1 hl2 ha1 ha2
    hn1 hn2 hj1
  have hRb := concat_some_some_block h y z a2 a3 j3 hp2 hp3 hl2 hl3 ha2 ha3
    hn2 hn3 hj3
  have hL1 : content
      (fs_string_concat (fs_string_concat h x y (some j1)).2
        (fs_string_concat h x y (some j1)).1 z (some j2)).2
      (fs_string_concat (fs_string_concat h x y (some j1)).2
        (fs_string_concat h x y (some j1)).1 z (some j2)).1 =
      content (fs_string_concat h x y (some j1)).2
          (fs_string_concat h x y (some j1)).1 ++
        content (fs_string_concat h x y (some j1)).2 z := by
    refine concat_content_eq _ _ _ (heapSize h) a3 j2 ?_ ?_ ?_ hl3 ?_ ?_ ?_ ?_ ?_
    · rw [hLb]
    · exact hp3
    · rw [hLb]
      exact add_nonneg hl1 hl2
    · rw [hLb]
      simp [heapSize_pushBlock]
    · rw [hLb]
      rw [heapSize_pushBlock]
      omega
    · rw [hLb]
      simp only [readBlock_pushBlock_self]
      rw [Int.toNat_add hl1 hl2]
      rw [List.length_append, List.length_append, htk1, htk2]
      simp
    · rw [hLb]
      rw [readBlock_pushBlock_lt _ _ _ ha3]
      exact hn3
    · rw [hLb]
      exact hj2
  have hR1 : content
      (fs_string_concat (fs_string_concat h y z (some j3)).2 x
        (fs_string_concat h y z (some j3)).1 (some j4)).2
      (fs_string_concat (fs_string_concat h y z (some j3)).2 x
        (fs_string_concat h y z (some j3)).1 (some j4)).1 =
      content (fs_string_concat h y z (some j3)).2 x ++
        content (fs_string_concat h y z (some j3)).2
          (fs_string_concat h y z (some j3)).1 := by
    refine concat_content_eq _ _ _ a1 (heapSize h) j4 hp1 ?_ hl1 ?_ ?_ ?_ ?_ ?_ ?_
    · rw [hRb]
    · rw [hRb]
      exact add_nonneg hl2 hl3
    · rw [hRb]
      rw [heapSize_pushBlock]
      omega
    · rw [hRb]
      simp [heapSize_pushBlock]
    · rw [hRb]
      rw [readBlock_pushBlock_lt _ _ _ ha1]
      exact hn1
    · rw [hRb]
      simp only [readBlock_pushBlock_self]
      rw [Int.toNat_add hl2 hl3]
      rw [List.length_append, List.length_append, htk2, htk3]
      simp
    · rw [hRb]
      exact hj4
  rw [hL1, hR1]
  have e1 : content (fs_string_concat h x y (some j1)).2
      (fs_string_concat h x y (some j1)).1 =
      content h x ++ content h y :=
    concat_content_eq h x y a1 a2 j1 hp1 hp2 hl1 hl2 ha1 ha2 hn1 hn2 hj1
  have e2 : content (fs_string_concat h x y (some j1)).2 z = content h z := by
    rw [hLb]
    exact content_pushBlock_lt h _ z a3 hp3 ha3
  have e3 : content (fs_string_concat h y z (some j3)).2
      (fs_string_concat h y z (some j3)).1 =
      content h y ++ content h z :=
    concat_content_eq h y z a2 a3 j3 hp2 hp3 hl2 hl3 ha2 ha3 hn2 hn3 hj3
  have e4 : content (fs_string_concat h y z (some j3)).2 x = content h x := by
    rw [hRb]
    exact content_pushBlock_lt h _ x a1 hp1 ha1
  rw [e1, e2, e3, e4, List.append_assoc]

/-- C7 witness: with `x = "a"`, `y = "b"`, `z = "c"` in blocks 0, 1, 2,
both association orders yield the same content. -/
theorem concat_assoc_content_witness :
    content
        (fs_string_concat (fs_string_concat [[97, 0], [98, 0], [99, 0]]
            ⟨some 0, 1, 1⟩ ⟨some 1, 1, 1⟩ (some [4, 4, 4])).2
          (fs_string_concat [[97, 0], [98, 0], [99, 0]] ⟨some 0, 1, 1⟩
            ⟨some 1, 1, 1⟩ (some [4, 4, 4])).1 ⟨some 2, 1, 1⟩
          (some [6, 6, 6, 6])).2
        (fs_string_concat (fs_string_concat [[97, 0], [98, 0], [99, 0]]
            ⟨some 0, 1, 1⟩ ⟨some 1, 1, 1⟩ (some [4, 4, 4])).2
          (fs_string_concat [[97, 0], [98, 0], [99, 0]] ⟨some 0, 1, 1⟩
            ⟨some 1, 1, 1⟩ (some [4, 4, 4])).1 ⟨some 2, 1, 1⟩
          (some [6, 6, 6, 6])).1 =
      content
        (fs_string_concat (fs_string_concat [[97, 0], [98, 0], [99, 0]]
            ⟨some 1, 1, 1⟩ ⟨some 2, 1, 1⟩ (some [4, 4, 4])).2 ⟨some 0, 1, 1⟩
          (fs_string_concat [[97, 0], [98, 0], [99, 0]] ⟨some 1, 1, 1⟩
            ⟨some 2, 1, 1⟩ (some [4, 4, 4])).1 (some [6, 6, 6, 6])).2
        (fs_string_concat (fs_string_concat [[97, 0], [98, 0], [99, 0]]
            ⟨some 1, 1, 1⟩ ⟨some 2, 1, 1⟩ (some [4, 4, 4])).2 ⟨some 0, 1, 1⟩
          (fs_string_concat [[97, 0], [98, 0], [99, 0]] ⟨some 1, 1, 1⟩
            ⟨some 2, 1, 1⟩ (some [4, 4, 4])).1 (some [6, 6, 6, 6])).1 :=
  concat_assoc_content [[97, 0], [98, 0], [99, 0]] ⟨some 0, 1, 1⟩
    ⟨some 1, 1, 1⟩ ⟨some 2, 1, 1⟩ 0 1 2 [4, 4, 4] [6, 6, 6, 6] [4, 4, 4]
    [6, 6, 6, 6] rfl rfl rfl (by decide) (by decide) (by decide) (by decide)
    (by decide) (by decide) (by decide) (by decide) (by decide) (by decide)
    (by decide) (by decide) (by decide)

end Ferro
